import Mathlib

/-!
Verification of `Ocanath/realtime-audio-udp` (Python, two source files:
`udp_audio_streamer.py` and `test_sender.py`) against its natural-language
specification.  The definitions below are a shallow embedding of the
program: bytes are `Nat`s below 256, `struct` packing/unpacking is explicit
little-endian arithmetic, Python exceptions that a handler catches are
`Option` results, and the two threads plus the shared queue are a state
machine driven by an explicit event trace.
-/

/-- One byte of `struct.pack('<H', n)`-style little-endian 16-bit packing:
the two bytes of `n` (valid for `n < 65536`). -/
def pack16le (n : Nat) : List Nat :=
  [n % 256, n / 256 % 256]

/-- `struct.pack('<I', n)`-style little-endian 32-bit packing (valid for
`n < 2^32`). -/
def pack32le (n : Nat) : List Nat :=
  [n % 256, n / 256 % 256, n / 65536 % 256, n / 16777216 % 256]

/-- `struct.pack('<h', s)`: a signed 16-bit sample as two little-endian
two's-complement bytes (valid for `-32768 ≤ s < 32768`). -/
def int16ToBytes (s : Int) : List Nat :=
  pack16le ((s % 65536).toNat)

/-- Reassemble one little-endian signed 16-bit sample from its two bytes,
as `struct.unpack('<h', ...)` does. -/
def bytesToInt16 (a b : Nat) : Int :=
  let u : Nat := a + 256 * b
  if u < 32768 then (u : Int) else (u : Int) - 65536

/-- `struct.pack('<Nh', *samples)` (test_sender.py line 73, and the repack at
udp_audio_streamer.py line 83): the concatenated little-endian bytes of the
samples. -/
def packSamples (samples : List Int) : List Nat :=
  (samples.map int16ToBytes).flatten

/-- `struct.unpack('<Nh', data)` with `N = len(data)//2`
(udp_audio_streamer.py line 82): `none` models the `struct.error` raised on
an odd-length buffer, `some` the tuple of decoded samples. -/
def unpackSamples : List Nat → Option (List Int)
  | [] => some []
  | [_] => none
  | a :: b :: rest => (unpackSamples rest).map (fun l => bytesToInt16 a b :: l)

/-- test_sender.py lines 69-76: the headered datagram, a 6-byte header
`struct.pack('<HI', seq_num, sample_timestamp)` followed by the packed
samples. -/
def encode (seq ts : Nat) (samples : List Int) : List Nat :=
  pack16le seq ++ pack32le ts ++ packSamples samples

/-- test_sender.py line 70: `struct.pack('<HI', seq, ts)` raises
`struct.error` (here `none`) when either field is out of its unsigned
range. -/
def pack_HI (seq ts : Nat) : Option (List Nat) :=
  if seq < 65536 ∧ ts < 4294967296 then some (pack16le seq ++ pack32le ts) else none

/-- Modelled from the spec: the headered `decode(bytes) → Packet |
MalformedError` of §4.1 is implemented nowhere under `src/` (the receiver
in `udp_audio_streamer.py` uses the headerless framing), so it is taken
from the spec's words: a datagram shorter than the 6-byte header, or whose
trailing payload byte count is odd, is malformed (`none`); otherwise the
first two bytes are the little-endian sequence number, the next four the
little-endian sample timestamp, and the rest little-endian signed 16-bit
samples (the wire table allows `N ≥ 0` samples). -/
def frame_decode (data : List Nat) : Option (Nat × Nat × List Int) :=
  match data with
  | s0 :: s1 :: t0 :: t1 :: t2 :: t3 :: rest =>
    (unpackSamples rest).map
      (fun samples =>
        (s0 + 256 * s1, t0 + 256 * t1 + 65536 * t2 + 16777216 * t3, samples))
  | _ => none

/-- udp_audio_streamer.py lines 80-83: the receiver's (headerless) decode.
A datagram is considered only when `data and len(data) >= 2`; the
`struct.unpack` on an odd-length buffer raises, which the generic handler
at line 102 catches, so no chunk is emitted (`none`). -/
def udp_receiver_decode (data : List Nat) : Option (List Int) :=
  if 2 ≤ data.length then unpackSamples data else none

/-- An in-memory chunk: the decoded samples of one datagram (its
`audio_bytes` are the 1:1 repacking of these samples). -/
abbrev Chunk := List Int

/-- `queue.Queue(maxsize=cap).put_nowait` (udp_audio_streamer.py line 87):
`none` models the `queue.Full` exception. -/
def put_nowait (cap : Nat) (q : List Chunk) (c : Chunk) : Option (List Chunk) :=
  if q.length < cap then some (q ++ [c]) else none

/-- `queue.Queue.get_nowait` (line 91): `none` models `queue.Empty`;
otherwise the oldest chunk and the remaining queue. -/
def get_nowait (q : List Chunk) : Option (Chunk × List Chunk) :=
  match q with
  | [] => none
  | c :: rest => some (c, rest)

/-- udp_audio_streamer.py lines 86-94, the receiver's insert-with-eviction:
`put_nowait`; on `queue.Full`, `get_nowait` the oldest (on `queue.Empty`,
pass — the chunk is dropped) and `put_nowait` again.  The `getD` covers the
second put failing, which cannot happen while the queue's length is at most
`cap` with `0 < cap`; in that unreachable case the chunk is not inserted. -/
def receiver_insert (cap : Nat) (q : List Chunk) (c : Chunk) : List Chunk :=
  match put_nowait cap q c with
  | some q2 => q2
  | none =>
    match get_nowait q with
    | none => q
    | some (_, rest) => (put_nowait cap rest c).getD rest

/-- The shared state of the streamer session: the bounded hand-off queue
(`audio_queue`), the recording accumulator (`audio_data_buffer`), and the
chunks written so far to the playback device. -/
structure StreamState where
  q : List Chunk
  recorded : List Chunk
  played : List Chunk
  deriving DecidableEq, Repr

/-- One atomic occurrence processed by the two loops: a datagram arriving
at the receiver (`recv`), the receiver's `socket.timeout` poll cycle
(`timeout`), and one iteration of the playback loop's
`audio_queue.get(timeout=1.0)` (`drain`, which finds the queue empty when
no chunk is available — `queue.Empty`). -/
inductive StreamEvent where
  | recv (data : List Nat)
  | timeout
  | drain
  deriving DecidableEq, Repr

/-- One step of the session state machine, straight from the two loop
bodies.  `recv` (udp_audio_streamer.py lines 78-98): decode; on success
insert into the queue with eviction and, when saving is enabled, append
the chunk to the recording accumulator (line 98) — this happens in the
receiver, at network-arrival time.  `timeout` (lines 100-101): `continue`.
`drain` (lines 110-114): pop the oldest chunk and write it to the device
(`if self.stream and audio_data` skips an empty byte string); on
`queue.Empty`, `continue` with nothing written. -/
def streamStep (cap : Nat) (recording : Bool) (s : StreamState) :
    StreamEvent → StreamState
  | .recv data =>
    match udp_receiver_decode data with
    | none => s
    | some c =>
      { s with
        q := receiver_insert cap s.q c
        recorded := if recording then s.recorded ++ [c] else s.recorded }
  | .timeout => s
  | .drain =>
    match s.q with
    | [] => s
    | c :: rest =>
      { s with
        q := rest
        played := if c.isEmpty then s.played else s.played ++ [c] }

/-- Run the session over a trace of events. -/
def streamRun (cap : Nat) (recording : Bool) (s : StreamState) :
    List StreamEvent → StreamState
  | [] => s
  | e :: es => streamRun cap recording (streamStep cap recording s e) es

/-- The session's initial state: empty queue, nothing recorded, nothing
played. -/
def initState : StreamState :=
  { q := [], recorded := [], played := [] }

/-- The chunks a trace's datagrams decode to, in network-arrival order. -/
def decodedChunks : List StreamEvent → List Chunk
  | [] => []
  | .recv data :: es =>
    match udp_receiver_decode data with
    | none => decodedChunks es
    | some c => c :: decodedChunks es
  | _ :: es => decodedChunks es

/-- The state of the optional WAV container. -/
structure WavState where
  nchannels : Nat
  sampwidth : Nat
  framerate : Nat
  frames : List Chunk
  closed : Bool
  deriving DecidableEq, Repr

/-- udp_audio_streamer.py lines 57-63, `setup_wav_file`: when a save file
is requested, open the container and fix mono, 2-byte samples and the
session's sample rate; no frames are written and the file is not closed. -/
def setup_wav_file (save_file : Bool) (sample_rate : Nat) : Option WavState :=
  if save_file then
    some { nchannels := 1, sampwidth := 2, framerate := sample_rate,
           frames := [], closed := false }
  else none

/-- udp_audio_streamer.py lines 162-168, the end of `stop()`: only when the
WAV file exists AND the accumulator is nonempty (`if self.wav_file and
self.audio_data_buffer`) are the chunks written and the container closed;
otherwise the container is left untouched (in particular, not closed). -/
def stop_save (wav : Option WavState) (buf : List Chunk) : Option WavState :=
  match wav with
  | none => none
  | some w =>
    if buf.isEmpty then some w
    else some { w with frames := w.frames ++ buf, closed := true }

/-- test_sender.py lines 51-84: the sender's `(seq_num, sample_timestamp)`
counters after `n` packets of `m` samples each, starting from `(0, 0)`;
each packet updates `seq_num = (seq_num + 1) % 65536` (line 83) and
`sample_timestamp += len(packet_samples)` (line 84, no reduction). -/
def sender_state (m : Nat) : Nat → Nat × Nat
  | 0 => (0, 0)
  | n + 1 =>
    (((sender_state m n).1 + 1) % 65536, (sender_state m n).2 + m)

/-- test_sender.py lines 10-24, `generate_continuous_sine_wave`: the loop
appends, for each `i < num_samples`, the clamp of the converted sample to
the signed 16-bit range (`max(-32768, min(32767, sample_int))`).  The
floating-point computation `int(amplitude * sin(2*pi*frequency*t) * 32767)`
and the bound `num_samples = int(sample_rate * duration)` are abstracted as
the function `raw` and the parameter `num_samples`, since floating point
has no shallow embedding; the loop structure and the clamp follow the
source. -/
def generate_continuous_sine_wave (num_samples : Nat) (raw : Nat → Int) :
    List Int :=
  (List.range num_samples).map (fun i => max (-32768) (min 32767 (raw i)))

/-! Helper lemmas about packing and the queue operations. -/

/-- Unpacking the two packed bytes of an in-range signed 16-bit sample
gives the sample back. -/
theorem bytesToInt16_pack (s : Int) (h1 : -32768 ≤ s) (h2 : s < 32768) :
    bytesToInt16 ((s % 65536).toNat % 256) ((s % 65536).toNat / 256 % 256)
      = s := by
  simp only [bytesToInt16]
  split_ifs <;> omega

/-- `packSamples` on a cons, written out. -/
theorem packSamples_cons (s : Int) (rest : List Int) :
    packSamples (s :: rest)
      = (s % 65536).toNat % 256 :: (s % 65536).toNat / 256 % 256
        :: packSamples rest := by
  simp [packSamples, int16ToBytes, pack16le]

/-- Each sample occupies exactly two payload bytes. -/
theorem packSamples_length (samples : List Int) :
    (packSamples samples).length = 2 * samples.length := by
  induction samples with
  | nil => rfl
  | cons s rest ih =>
    rw [packSamples_cons]
    simp only [List.length_cons, ih]
    omega

/-- Round-trip of the payload packing, for in-range samples. -/
theorem unpackSamples_packSamples (samples : List Int)
    (h : ∀ s ∈ samples, -32768 ≤ s ∧ s < 32768) :
    unpackSamples (packSamples samples) = some samples := by
  induction samples with
  | nil => rfl
  | cons s rest ih =>
    have hs := h s (List.mem_cons_self s rest)
    rw [packSamples_cons]
    simp only [unpackSamples]
    rw [ih (fun x hx => h x (List.mem_cons_of_mem s hx))]
    simp only [Option.map_some']
    rw [bytesToInt16_pack s hs.1 hs.2]

/-- Sample `k` of the payload sits at byte offset `2*k`. -/
theorem packSamples_take_drop (samples : List Int) :
    ∀ k, k < samples.length →
      ((packSamples samples).drop (2 * k)).take 2
        = int16ToBytes (samples.getD k 0) := by
  induction samples with
  | nil => intro k hk; simp at hk
  | cons s rest ih =>
    intro k hk
    rw [packSamples_cons]
    cases k with
    | zero => simp [int16ToBytes, pack16le]
    | succ k2 =>
      have hd : List.drop (2 * (k2 + 1))
          ((s % 65536).toNat % 256 :: (s % 65536).toNat / 256 % 256
            :: packSamples rest)
          = List.drop (2 * k2) (packSamples rest) := by
        have h2 : 2 * (k2 + 1) = 2 * k2 + 2 := by omega
        rw [h2]
        rfl
      rw [hd]
      have hk2 : k2 < rest.length := by simpa using hk
      simpa [List.getD_cons_succ] using ih k2 hk2

/-- The insert when the queue is below capacity: a plain append. -/
theorem receiver_insert_not_full (cap : Nat) (q : List Chunk) (c : Chunk)
    (h : q.length < cap) : receiver_insert cap q c = q ++ [c] := by
  simp [receiver_insert, put_nowait, h]

/-- The insert on a full (nonempty) queue: the oldest entry is evicted and
the new chunk appended. -/
theorem receiver_insert_full (cap : Nat) (x : Chunk) (rest : List Chunk)
    (c : Chunk) (h : ¬ (x :: rest).length < cap) (h2 : rest.length < cap) :
    receiver_insert cap (x :: rest) c = rest ++ [c] := by
  have h' : ¬ rest.length + 1 < cap := by simpa using h
  simp [receiver_insert, put_nowait, get_nowait, h', h2]

/-- The insert on a queue strictly above capacity (unreachable from the
empty queue): the oldest entry is evicted and the chunk dropped. -/
theorem receiver_insert_over (cap : Nat) (x : Chunk) (rest : List Chunk)
    (c : Chunk) (h : ¬ (x :: rest).length < cap) (h2 : ¬ rest.length < cap) :
    receiver_insert cap (x :: rest) c = rest := by
  have h' : ¬ rest.length + 1 < cap := by simpa using h
  simp [receiver_insert, put_nowait, get_nowait, h', h2]

/-- The insert on an empty queue of capacity 0. -/
theorem receiver_insert_nil_zero (cap : Nat) (c : Chunk) (h : ¬ 0 < cap) :
    receiver_insert cap [] c = [] := by
  simp [receiver_insert, put_nowait, get_nowait, h]

/-- The recording accumulator collects every decoded chunk at receive
time: running a trace appends exactly the arrival-order decoded chunks. -/
theorem streamRun_recorded (cap : Nat) (es : List StreamEvent) :
    ∀ s : StreamState,
      (streamRun cap true s es).recorded = s.recorded ++ decodedChunks es := by
  induction es with
  | nil => intro s; simp [streamRun, decodedChunks]
  | cons e es ih =>
    intro s
    cases e with
    | recv data =>
      cases hd : udp_receiver_decode data with
      | none => simp [streamRun, streamStep, decodedChunks, hd, ih]
      | some c => simp [streamRun, streamStep, decodedChunks, hd, ih]
    | timeout => simp [streamRun, streamStep, decodedChunks, ih]
    | drain =>
      cases hq : s.q with
      | nil => simp [streamRun, streamStep, decodedChunks, hq, ih]
      | cons c rest => simp [streamRun, streamStep, decodedChunks, hq, ih]

/-- One step preserves "everything played, plus what is still queued, is a
subsequence of the recording". -/
theorem streamStep_preserves_sublist (cap : Nat) (s : StreamState)
    (e : StreamEvent) (h : (s.played ++ s.q).Sublist s.recorded) :
    ((streamStep cap true s e).played
      ++ (streamStep cap true s e).q).Sublist
      (streamStep cap true s e).recorded := by
  cases e with
  | timeout => simpa [streamStep] using h
  | recv data =>
    cases hd : udp_receiver_decode data with
    | none => simpa [streamStep, hd] using h
    | some c =>
      simp only [streamStep, hd, if_pos]
      rcases Nat.lt_or_ge s.q.length cap with h1 | h1
      · rw [receiver_insert_not_full cap s.q c h1, ← List.append_assoc]
        exact h.append_right [c]
      · cases hq : s.q with
        | nil =>
          rw [hq] at h1
          rw [receiver_insert_nil_zero cap c (by simpa using h1)]
          have hpl : s.played.Sublist s.recorded := by simpa [hq] using h
          simpa using hpl.trans (List.sublist_append_left s.recorded [c])
        | cons x rest =>
          rw [hq] at h1 h
          by_cases h2 : rest.length < cap
          · rw [receiver_insert_full cap x rest c (by omega) h2,
              ← List.append_assoc]
            exact (((List.sublist_cons_self x rest).append_left
              s.played).trans h).append_right [c]
          · rw [receiver_insert_over cap x rest c (by omega) h2]
            exact (((List.sublist_cons_self x rest).append_left
              s.played).trans h).trans
              (List.sublist_append_left s.recorded [c])
  | drain =>
    cases hq : s.q with
    | nil => simpa [streamStep, hq] using h
    | cons c rest =>
      rw [hq] at h
      simp only [streamStep, hq]
      by_cases hc : c.isEmpty
      · simp only [if_pos hc]
        exact ((List.sublist_cons_self c rest).append_left s.played).trans h
      · simp only [if_neg hc]
        rw [List.append_assoc]
        simpa using h

/-- Over a whole trace, playback plus whatever is still queued is a
subsequence of the recording. -/
theorem streamRun_sublist (cap : Nat) (es : List StreamEvent) :
    ∀ s : StreamState, (s.played ++ s.q).Sublist s.recorded →
      ((streamRun cap true s es).played
        ++ (streamRun cap true s es).q).Sublist
        (streamRun cap true s es).recorded := by
  induction es with
  | nil => intro s h; simpa [streamRun] using h
  | cons e es ih =>
    intro s h
    rw [streamRun]
    exact ih _ (streamStep_preserves_sublist cap s e h)

/-- The sender's counters in closed form: after `n` packets of `m` samples
each, `seq_num` has wrapped modulo 65536 while `sample_timestamp` is the
exact, unreduced total of samples sent. -/
theorem sender_state_eq (m n : Nat) :
    sender_state m n = (n % 65536, n * m) := by
  induction n with
  | zero => simp [sender_state]
  | succ k ih =>
    rw [sender_state, ih]
    simp only [Prod.mk.injEq]
    constructor
    · omega
    · ring

/-! The claims. -/

/-- Claim C1, counterexample to the claim as stated: with a hand-off
buffer of capacity 2 and recording enabled, three datagrams arrive before
any drain; the first chunk `[0]` is evicted from the full buffer and never
played, yet it IS present in the recording accumulator — the accumulator
holds all three chunks in network-arrival order, while playback holds only
the two survivors, so recording order is not buffer-drain order and an
evicted chunk is not absent from the recording. -/
theorem evicted_chunk_recorded_cex :
    (streamRun 2 true initState
        [.recv [0, 0], .recv [1, 0], .recv [2, 0], .drain, .drain]).recorded
      = [[0], [1], [2]]
    ∧ (streamRun 2 true initState
        [.recv [0, 0], .recv [1, 0], .recv [2, 0], .drain, .drain]).played
      = [[1], [2]]
    ∧ [(0 : Int)] ∈ (streamRun 2 true initState
        [.recv [0, 0], .recv [1, 0], .recv [2, 0], .drain, .drain]).recorded
    ∧ [(0 : Int)] ∉ (streamRun 2 true initState
        [.recv [0, 0], .recv [1, 0], .recv [2, 0], .drain, .drain]).played := by
  decide

/-- Claim C1 (amended): when recording is enabled, chunks are appended to
the in-memory recording accumulator at receive time, in network-arrival
order — after any trace of events the accumulator is exactly the sequence
of successfully decoded chunks in arrival order, so a chunk evicted from
the full hand-off buffer before being drained is absent from playback but
still present in the recording; what is played (plus what is still queued)
is a subsequence of the recording. -/
theorem recording_is_arrival_order (cap : Nat) (es : List StreamEvent) :
    (streamRun cap true initState es).recorded = decodedChunks es
    ∧ ((streamRun cap true initState es).played
        ++ (streamRun cap true initState es).q).Sublist
        (streamRun cap true initState es).recorded := by
  constructor
  · simpa [initState] using streamRun_recorded cap es initState
  · exact streamRun_sublist cap es initState (by simp [initState])

/-- Claim C2, counterexample to the claim as stated: under headerless
framing the empty sample list does not round-trip — its encoded payload is
the empty byte string, which the receiver discards (`len(data) >= 2`
fails), yielding no chunk rather than the empty sample list. -/
theorem headerless_empty_roundtrip_cex :
    udp_receiver_decode (packSamples ([] : List Int)) = none := by
  decide

/-- Claim C2 (amended): for every sequence number below 2^16, timestamp
below 2^32 and list of in-range signed 16-bit samples, decoding the bytes
produced by `encode` yields back exactly `(seq, ts, samples)` under
headered framing; under headerless framing, decoding the encoded payload
yields back exactly the samples whenever the sample list is nonempty (the
receiver discards datagrams shorter than 2 bytes, so the empty sample list
is discarded instead). -/
theorem decode_encode_roundtrip (seq ts : Nat) (samples : List Int)
    (hseq : seq < 65536) (hts : ts < 4294967296)
    (hs : ∀ s ∈ samples, -32768 ≤ s ∧ s < 32768) :
    frame_decode (encode seq ts samples) = some (seq, ts, samples)
    ∧ (samples ≠ [] →
        udp_receiver_decode (packSamples samples) = some samples) := by
  constructor
  · have hform : encode seq ts samples
        = seq % 256 :: seq / 256 % 256 :: ts % 256 :: ts / 256 % 256
          :: ts / 65536 % 256 :: ts / 16777216 % 256 :: packSamples samples := by
      simp [encode, pack16le, pack32le]
    rw [hform]
    simp only [frame_decode]
    rw [unpackSamples_packSamples samples hs]
    simp only [Option.map_some', Option.some.injEq, Prod.mk.injEq]
    refine ⟨by omega, by omega, trivial⟩
  · intro hne
    have hlen : 2 ≤ (packSamples samples).length := by
      rw [packSamples_length]
      cases samples with
      | nil => exact absurd rfl hne
      | cons a l => simp
    rw [udp_receiver_decode, if_pos hlen]
    exact unpackSamples_packSamples samples hs

/-- Claim C2, witness: a concrete round-trip through both framings. -/
theorem decode_encode_roundtrip_witness :
    frame_decode (encode 1 2 [5, -3]) = some (1, 2, [5, -3])
    ∧ udp_receiver_decode (packSamples [5, -3]) = some [5, -3] := by
  have h := decode_encode_roundtrip 1 2 [5, -3] (by decide) (by decide)
    (by decide)
  exact ⟨h.1, h.2 (by decide)⟩

/-- Claim C3: inserting into a hand-off buffer holding exactly `C` chunks
(`0 < C`) evicts the oldest entry and appends the newest, leaving the
`C - 1` most recently inserted prior chunks plus the new one in insertion
order; an insert never grows the buffer beyond `C`, and a remove only
shrinks it. -/
theorem bounded_buffer_eviction (C : Nat) (q : List Chunk) (c : Chunk)
    (hC : 0 < C) :
    (q.length = C → receiver_insert C q c = q.drop 1 ++ [c])
    ∧ (q.length ≤ C → (receiver_insert C q c).length ≤ C)
    ∧ (∀ c2 q2, get_nowait q = some (c2, q2) →
        q.length ≤ C → q2.length ≤ C) := by
  refine ⟨?_, ?_, ?_⟩
  · intro hfull
    cases q with
    | nil => simp at hfull; omega
    | cons x rest =>
      have h1 : ¬ (x :: rest).length < C := by simp at hfull ⊢; omega
      have h2 : rest.length < C := by simp at hfull; omega
      rw [receiver_insert_full C x rest c h1 h2]
      simp
  · intro hle
    by_cases hlt : q.length < C
    · rw [receiver_insert_not_full C q c hlt]
      simp
      omega
    · cases q with
      | nil => simp at hlt; omega
      | cons x rest =>
        have h2 : rest.length < C := by simp at hlt hle; omega
        rw [receiver_insert_full C x rest c hlt h2]
        simp at hle ⊢
        omega
  · intro c2 q2 hget hle
    cases q with
    | nil => simp [get_nowait] at hget
    | cons x rest =>
      simp [get_nowait] at hget
      rw [← hget.2]
      simp at hle
      omega

/-- Claim C3, witness: capacity 2, full buffer, the oldest chunk is
evicted, sizes stay within capacity. -/
theorem bounded_buffer_eviction_witness :
    receiver_insert 2 [[1], [2]] [3] = [[2], [3]]
    ∧ (receiver_insert 2 [[1], [2]] [3]).length ≤ 2
    ∧ ([[2]] : List Chunk).length ≤ 2 := by
  have h := bounded_buffer_eviction 2 [[1], [2]] [3] (by decide)
  exact ⟨by simpa using h.1 (by decide), h.2.1 (by decide),
    h.2.2 [1] [[2]] (by decide) (by decide)⟩

/-- An odd-length buffer makes `struct.unpack`-style sample decoding fail. -/
theorem unpackSamples_odd (data : List Nat) (h : data.length % 2 = 1) :
    unpackSamples data = none := by
  induction data using unpackSamples.induct with
  | case1 => simp at h
  | case2 a => rfl
  | case3 a b rest ih =>
    have : rest.length % 2 = 1 := by simp at h; omega
    rw [unpackSamples, ih this]
    rfl

/-- Claim C4, counterexample to the claim as stated: a 4-byte datagram —
shorter than the 6-byte header — is NOT discarded.  The receiver under
`src/` parses no header at all: the bytes are decoded as two samples,
emitting one chunk into the hand-off queue and the recording
accumulator. -/
theorem short_datagram_not_discarded_cex :
    udp_receiver_decode [0, 0, 0, 0] = some [0, 0]
    ∧ (streamRun 100 true initState [.recv [0, 0, 0, 0]]).recorded
        = [[0, 0]]
    ∧ (streamRun 100 true initState [.recv [0, 0, 0, 0]]).q = [[0, 0]] := by
  decide

/-- Claim C4 (amended): the receiver's decode is headerless, so its
malformed inputs are byte strings shorter than 2 bytes or with an odd byte
count (covering the 5-byte datagram of the claim): on those the decode
path emits zero chunks, appends nothing to the recording accumulator, the
state is unchanged and no fault escapes (the odd-length `struct.error` is
caught by the loop's handler) — even-length datagrams of 2 or 4 bytes,
though shorter than 6 bytes, each produce a chunk. -/
theorem malformed_datagram_discarded (data : List Nat) (cap : Nat)
    (recording : Bool) (s : StreamState)
    (h : data.length < 2 ∨ data.length % 2 = 1) :
    udp_receiver_decode data = none
    ∧ streamStep cap recording s (.recv data) = s := by
  have hdec : udp_receiver_decode data = none := by
    rcases h with h | h
    · rw [udp_receiver_decode, if_neg (by omega)]
    · rw [udp_receiver_decode]
      split_ifs with h2
      · exact unpackSamples_odd data h
      · rfl
  exact ⟨hdec, by simp [streamStep, hdec]⟩

/-- Claim C4, witness: the 5-byte datagram of the claim is discarded and
leaves the session state unchanged. -/
theorem malformed_datagram_discarded_witness :
    udp_receiver_decode [0, 0, 0, 0, 0] = none
    ∧ streamStep 100 true initState (.recv [0, 0, 0, 0, 0]) = initState :=
  malformed_datagram_discarded [0, 0, 0, 0, 0] 100 true initState
    (by decide)

/-- Claim C5: with recording enabled and zero chunks accumulated, `stop()`
does NOT finalize the WAV container: the guard `if self.wav_file and
self.audio_data_buffer` skips both the frame writing and the `close()`, so
the opened container keeps its fixed format metadata but is left unclosed
(`closed = false`) — the code contradicts the claim, which per the spec's
explicit scenario is the intent. -/
theorem empty_recording_left_unfinalized :
    stop_save (setup_wav_file true 16000) []
      = some { nchannels := 1, sampwidth := 2, framerate := 16000,
               frames := [], closed := false } := by
  decide

/-- Claim C6: the receiver's insert is a total, non-waiting operation built
from `put_nowait`/`get_nowait` only: below capacity it returns after
appending the chunk, and on a full buffer (`0 < C` chunks) it returns
after evicting the single oldest entry and appending the new chunk. -/
theorem insert_never_blocks (C : Nat) (q : List Chunk) (c : Chunk)
    (hC : 0 < C) :
    (q.length < C → receiver_insert C q c = q ++ [c])
    ∧ (q.length = C → receiver_insert C q c = q.drop 1 ++ [c]) := by
  constructor
  · intro h
    exact receiver_insert_not_full C q c h
  · intro hfull
    cases q with
    | nil => simp at hfull; omega
    | cons x rest =>
      have h1 : ¬ (x :: rest).length < C := by simp at hfull ⊢; omega
      have h2 : rest.length < C := by simp at hfull; omega
      rw [receiver_insert_full C x rest c h1 h2]
      simp

/-- Claim C6, witness: a non-full insert appends. -/
theorem insert_never_blocks_witness :
    receiver_insert 2 [[1]] [2] = [[1], [2]] := by
  have h := insert_never_blocks 2 [[1]] [2] (by decide)
  simpa using h.1 (by decide)

/-- Claim C7: a receiver `socket.timeout` and a playback `queue.Empty`
timeout are poll cycles, not errors: the state is unchanged — no chunk is
emitted, nothing is recorded and nothing (in particular no synthesized
silence) is written to the playback device; both loops continue. -/
theorem timeout_is_poll_cycle (cap : Nat) (recording : Bool)
    (s : StreamState) (h : s.q = []) :
    streamStep cap recording s .timeout = s
    ∧ streamStep cap recording s .drain = s := by
  exact ⟨rfl, by simp [streamStep, h]⟩

/-- Claim C7, witness: both timeouts leave the initial state unchanged. -/
theorem timeout_is_poll_cycle_witness :
    streamStep 100 true initState .timeout = initState
    ∧ streamStep 100 true initState .drain = initState :=
  timeout_is_poll_cycle 100 true initState rfl

/-- Claim C8: for every sequence number below 2^16 and timestamp below
2^32, the encoded datagram is a 6-byte header followed by exactly
`2 * len(samples)` payload bytes; the first two header bytes reassemble
little-endian to the sequence number, the next four little-endian to the
timestamp, and payload sample `k` occupies bytes `6+2k, 6+2k+1` as the
little-endian signed 16-bit encoding of the `k`-th sample. -/
theorem encode_wire_layout (seq ts : Nat) (samples : List Int)
    (hseq : seq < 65536) (hts : ts < 4294967296) :
    (encode seq ts samples).length = 6 + 2 * samples.length
    ∧ seq = (encode seq ts samples).getD 0 0
        + 256 * (encode seq ts samples).getD 1 0
    ∧ ts = (encode seq ts samples).getD 2 0
        + 256 * (encode seq ts samples).getD 3 0
        + 65536 * (encode seq ts samples).getD 4 0
        + 16777216 * (encode seq ts samples).getD 5 0
    ∧ (encode seq ts samples).drop 6 = packSamples samples
    ∧ (∀ k, k < samples.length →
        ((encode seq ts samples).drop (6 + 2 * k)).take 2
          = int16ToBytes (samples.getD k 0)) := by
  have hform : encode seq ts samples
      = seq % 256 :: seq / 256 % 256 :: ts % 256 :: ts / 256 % 256
        :: ts / 65536 % 256 :: ts / 16777216 % 256 :: packSamples samples := by
    simp [encode, pack16le, pack32le]
  refine ⟨?_, ?_, ?_, ?_, ?_⟩
  · rw [hform]
    simp only [List.length_cons, packSamples_length]
    omega
  · rw [hform]
    simp only [List.getD_cons_zero, List.getD_cons_succ]
    omega
  · rw [hform]
    simp only [List.getD_cons_zero, List.getD_cons_succ]
    omega
  · rw [hform]
    rfl
  · intro k hk
    rw [hform]
    have hdrop : List.drop (6 + 2 * k)
        (seq % 256 :: seq / 256 % 256 :: ts % 256 :: ts / 256 % 256
          :: ts / 65536 % 256 :: ts / 16777216 % 256 :: packSamples samples)
        = List.drop (2 * k) (packSamples samples) := by
      rw [Nat.add_comm 6 (2 * k)]
      rfl
    rw [hdrop]
    exact packSamples_take_drop samples k hk

/-- Claim C8, witness: the layout of a concrete two-sample packet. -/
theorem encode_wire_layout_witness :
    (encode 258 66051 [7, -2]).length = 6 + 2 * 2
    ∧ ((encode 258 66051 [7, -2]).drop (6 + 2 * 1)).take 2
        = int16ToBytes (-2) := by
  have h := encode_wire_layout 258 66051 [7, -2] (by decide) (by decide)
  exact ⟨by simpa using h.1, by simpa using h.2.2.2.2 1 (by decide)⟩

/-- Claim C9, counterexample to the claim as stated: the sender never
reduces `sample_timestamp` modulo 2^32.  After 13421773 packets of 320
samples each the counter is 4294967360, which differs from its value
reduced modulo 2^32 (64), and packing the next header with
`struct.pack('<HI', ...)` fails (`struct.error`) instead of wrapping — so
the timestamp does not wrap at 2^32 without failure. -/
theorem sender_timestamp_no_wrap_cex :
    (sender_state 320 13421773).2 ≠ 13421773 * 320 % 4294967296
    ∧ pack_HI (sender_state 320 13421773).1 (sender_state 320 13421773).2
        = none := by
  rw [sender_state_eq]
  constructor
  · decide
  · rw [pack_HI, if_neg]
    decide

/-- Claim C9 (amended): for every packet the sender emits, the sequence
number is the number of previously sent packets reduced modulo 65536, and
the sample timestamp is the exact, unreduced total of samples sent in all
previous packets; the header packs successfully exactly while that total
is below 2^32, and once it reaches 2^32 `struct.pack` raises instead of
wrapping, so no further packet is emitted. -/
theorem sender_counter_semantics (n m : Nat) :
    (sender_state m n).1 = n % 65536
    ∧ (sender_state m n).2 = n * m
    ∧ (n * m < 4294967296 →
        pack_HI (sender_state m n).1 (sender_state m n).2
          = some (pack16le (n % 65536) ++ pack32le (n * m)))
    ∧ (4294967296 ≤ n * m →
        pack_HI (sender_state m n).1 (sender_state m n).2 = none) := by
  rw [sender_state_eq]
  refine ⟨rfl, rfl, ?_, ?_⟩
  · intro h
    rw [pack_HI, if_pos ⟨Nat.mod_lt n (by norm_num), h⟩]
  · intro h
    rw [pack_HI, if_neg]
    intro hc
    omega
/-- Claim C9, witness: after 3 packets of 320 samples, the counters and a
successful header pack. -/
theorem sender_counter_semantics_witness :
    (sender_state 320 3).1 = 3 % 65536
    ∧ (sender_state 320 3).2 = 3 * 320
    ∧ pack_HI (sender_state 320 3).1 (sender_state 320 3).2
        = some (pack16le (3 % 65536) ++ pack32le (3 * 320)) := by
  have h := sender_counter_semantics 3 320
  exact ⟨h.1, h.2.1, h.2.2.1 (by decide)⟩

/-- Claim C10: for every sample count and every raw sample function (the
abstraction of `int(amplitude * sin(2*pi*frequency*t) * 32767)` at each
index), the generator returns exactly `num_samples` integers and the clamp
keeps every one of them within the signed 16-bit range
`[-32768, 32767]`. -/
theorem sine_wave_length_and_range (num_samples : Nat) (raw : Nat → Int) :
    (generate_continuous_sine_wave num_samples raw).length = num_samples
    ∧ ∀ x ∈ generate_continuous_sine_wave num_samples raw,
        -32768 ≤ x ∧ x ≤ 32767 := by
  constructor
  · simp [generate_continuous_sine_wave]
  · intro x hx
    simp only [generate_continuous_sine_wave, List.mem_map] at hx
    obtain ⟨i, _, hi⟩ := hx
    rw [← hi]
    omega

/-- Claim C10, witness: a concrete run of the generator, with an
out-of-range raw value clamped into range. -/
theorem sine_wave_length_and_range_witness :
    (generate_continuous_sine_wave 3 (fun i => 100000 * (i : Int))).length
      = 3
    ∧ (-32768 ≤ (32767 : Int) ∧ (32767 : Int) ≤ 32767) := by
  have h := sine_wave_length_and_range 3 (fun i => 100000 * (i : Int))
  exact ⟨h.1, h.2 32767 (by decide)⟩
